import Mathlib

/-
Verification development for the hsc-store repository: a reactive state
container (src/core/createStore.ts), a computed-values middleware and a
time-travel middleware (src/middleware/computed.ts, src/middleware/timeTravel.ts),
and a persistence layer (src/core/persist.ts).

The JavaScript code is shallowly embedded: JS objects holding state become
association lists from string keys to a `Value` type, JS closures become Lean
functions, thrown exceptions become `Option`/explicit error values, and the
stateful middleware become explicit state-passing functions.
-/

/-- Model of a JavaScript runtime value as compared by `Object.is`.
`nan` and `negZero` are separate constructors so that equality on `Value`
agrees with `Object.is` (NaN equals NaN, +0 differs from -0); `ref` models
the identity of a non-primitive (object or array), and `func` the identity
of a function value, so that equality on `Value` is reference equality for
non-primitives, exactly as `Object.is` behaves. -/
inductive Value where
  | undef
  | vnull
  | num (n : Int)
  | nan
  | negZero
  | str (s : String)
  | bool (b : Bool)
  | ref (id : Nat)
  | func (id : Nat)
deriving DecidableEq, Repr

/-- A JavaScript object holding state: an ordered association list from
property name to value. Objects built by the library have no duplicate keys. -/
abbrev St := List (String × Value)

/-- Property read `st[k]`: the value at the first entry with key `k`,
or `undefined` when the key is absent. -/
def stGet : St → String → Value
  | [], _ => .undef
  | p :: rest, k => if p.1 = k then p.2 else stGet rest k

/-- Key presence check (`k in st` / `hasOwnProperty`). -/
def hasKey : St → String → Bool
  | [], _ => false
  | p :: rest, k => if p.1 = k then true else hasKey rest k

/-- Object spread `{ ...a, ...b }`: keys of `a` keep their position but take
the value from `b` when `b` also has the key; keys of `b` not present in `a`
are appended in their order. -/
def stMerge (a b : St) : St :=
  a.map (fun p => (p.1, if hasKey b p.1 then stGet b p.1 else p.2)) ++
    b.filter (fun p => !hasKey a p.1)

theorem stGet_eq_undef_of_not_hasKey {l : St} {k : String} (h : hasKey l k = false) :
    stGet l k = .undef := by
  induction l with
  | nil => rfl
  | cons p rest ih =>
    simp only [hasKey] at h
    simp only [stGet]
    by_cases hp : p.1 = k
    · simp [hp] at h
    · simp only [hp, if_false] at h ⊢
      exact ih h

theorem stGet_append (l₁ l₂ : St) (k : String) :
    stGet (l₁ ++ l₂) k = if hasKey l₁ k then stGet l₁ k else stGet l₂ k := by
  induction l₁ with
  | nil => simp [stGet, hasKey]
  | cons p rest ih =>
    by_cases hp : p.1 = k
    · simp [stGet, hasKey, hp]
    · simp [stGet, hasKey, hp, ih]

theorem hasKey_map_override (a b : St) (k : String) :
    hasKey (a.map (fun p => (p.1, if hasKey b p.1 then stGet b p.1 else p.2))) k =
      hasKey a k := by
  induction a with
  | nil => rfl
  | cons p rest ih =>
    by_cases hp : p.1 = k
    · simp [hasKey, hp]
    · simp [hasKey, hp, ih]

theorem stGet_map_override (a b : St) (k : String) (h : hasKey a k = true) :
    stGet (a.map (fun p => (p.1, if hasKey b p.1 then stGet b p.1 else p.2))) k =
      if hasKey b k then stGet b k else stGet a k := by
  induction a with
  | nil => simp [hasKey] at h
  | cons p rest ih =>
    by_cases hp : p.1 = k
    · subst hp
      simp [stGet, hasKey]
    · simp only [hasKey, hp, if_false] at h
      simp [stGet, hasKey, hp, ih h]

theorem stGet_filter_keep (b : St) (q : String × Value → Bool) (k : String)
    (h : ∀ x ∈ b, x.1 = k → q x = true) :
    stGet (b.filter q) k = stGet b k := by
  induction b with
  | nil => rfl
  | cons p rest ih =>
    by_cases hp : p.1 = k
    · have hq : q p = true := h p (List.mem_cons_self p rest) hp
      simp [List.filter, hq, stGet, hp]
    · have hrest : ∀ x ∈ rest, x.1 = k → q x = true := fun x hx => h x (List.mem_cons_of_mem p hx)
      cases hqv : q p with
      | true => simp [List.filter, hqv, stGet, hp, ih hrest]
      | false => simp [List.filter, hqv, stGet, hp, ih hrest]

theorem hasKey_filter_keep (b : St) (q : String × Value → Bool) (k : String)
    (h : ∀ x ∈ b, x.1 = k → q x = true) :
    hasKey (b.filter q) k = hasKey b k := by
  induction b with
  | nil => rfl
  | cons p rest ih =>
    by_cases hp : p.1 = k
    · have hq : q p = true := h p (List.mem_cons_self p rest) hp
      simp [List.filter, hq, hasKey, hp]
    · have hrest : ∀ x ∈ rest, x.1 = k → q x = true := fun x hx => h x (List.mem_cons_of_mem p hx)
      cases hqv : q p with
      | true => simp [List.filter, hqv, hasKey, hp, ih hrest]
      | false => simp [List.filter, hqv, hasKey, hp, ih hrest]

theorem hasKey_append (l₁ l₂ : St) (k : String) :
    hasKey (l₁ ++ l₂) k = (hasKey l₁ k || hasKey l₂ k) := by
  induction l₁ with
  | nil => simp [hasKey]
  | cons p rest ih =>
    by_cases hp : p.1 = k
    · simp [hasKey, hp]
    · simp [hasKey, hp, ih]

theorem stGet_filter_of_not_hasKey (b : St) (a : St) (k : String) (h : hasKey a k = false) :
    stGet (b.filter (fun p => !hasKey a p.1)) k = stGet b k := by
  apply stGet_filter_keep
  intro x _ hxk
  simp [hxk, h]

/-- The fundamental pointwise description of object spread: a key takes the
value from `b` when present there, otherwise the value from `a`. -/
theorem stGet_stMerge (a b : St) (k : String) :
    stGet (stMerge a b) k = if hasKey b k then stGet b k else stGet a k := by
  unfold stMerge
  rw [stGet_append, hasKey_map_override]
  by_cases ha : hasKey a k
  · rw [if_pos ha, stGet_map_override a b k ha]
  · rw [if_neg ha]
    rw [stGet_filter_of_not_hasKey b a k (by simpa using ha)]
    by_cases hb : hasKey b k
    · rw [if_pos hb]
    · rw [if_neg hb]
      rw [stGet_eq_undef_of_not_hasKey (by simpa using hb),
        stGet_eq_undef_of_not_hasKey (by simpa using ha)]

theorem hasKey_stMerge (a b : St) (k : String) :
    hasKey (stMerge a b) k = (hasKey a k || hasKey b k) := by
  unfold stMerge
  rw [hasKey_append, hasKey_map_override]
  by_cases ha : hasKey a k
  · simp [ha]
  · rw [hasKey_filter_keep b _ k (by intro x _ hxk; simp [hxk, ha])]

/-- If a key is present, the pair of the key with its first value is a member. -/
theorem mem_of_hasKey {l : St} {k : String} (h : hasKey l k = true) :
    (k, stGet l k) ∈ l := by
  induction l with
  | nil => simp [hasKey] at h
  | cons p rest ih =>
    by_cases hp : p.1 = k
    · subst hp
      simp [stGet]

    · simp only [hasKey, hp, if_false] at h
      simp only [stGet, hp, if_false]
      exact List.mem_cons_of_mem p (ih h)

/-!
## StateCell: `createStore` (src/core/createStore.ts, lines 421-537 of the
concatenated persist.ts source)

`state` starts undefined and is set by invoking the composed creator;
`listeners` is a JavaScript `Set` of listener function references, modeled as
an insertion-ordered duplicate-free list of function identities (`Nat`).
-/

/-- The mutable closure state of one `createStore` call: the current snapshot
(`none` while still undefined) and the `Set` of subscribed listeners, modeled
by the identities of the listener functions in insertion order. -/
structure Cell where
  state : Option St
  listeners : List Nat
deriving Repr, DecidableEq

/-- Argument of `setState`: either a plain object (a "partial") or an updater
function returning one. -/
inductive Payload where
  | obj (p : St)
  | updater (f : St → St)

/-- Lines 433-438: `typeof partial === "function" ? (state !== undefined ?
partial(state) : partial({})) : partial`. -/
def applyPayload (c : Cell) (pl : Payload) : St :=
  match pl with
  | .obj p => p
  | .updater f =>
    match c.state with
    | some st => f st
    | none => f []

/-- Lines 448-457: scan the keys of the update object and compare each with
`Object.is` against the current value; modeled by equality on `Value`. -/
def hasChanged (st : St) (ps : St) : Bool :=
  ps.any (fun kv => !(stGet st kv.1 == kv.2))

/-- Function `setState` (lines 430-464). Returns the new cell together with the list of
listeners invoked (in registration order); the list is empty exactly when no
listener fired. When nothing changed the cell is returned as-is (the stored
snapshot object keeps its identity). -/
def cellSetState (c : Cell) (pl : Payload) : Cell × List Nat :=
  let ps := applyPayload c pl
  match c.state with
  | none =>
    ({ c with state := some (stMerge [] ps) }, c.listeners)
  | some st =>
    if hasChanged st ps then
      ({ c with state := some (stMerge st ps) }, c.listeners)
    else
      (c, [])

/-- Function `subscribe` (lines 470-473): `listeners.add(listener)`; a `Set` ignores an
element already present. -/
def cellSubscribe (c : Cell) (l : Nat) : Cell :=
  if l ∈ c.listeners then c else { c with listeners := c.listeners ++ [l] }

/-- The unsubscribe closure returned by `subscribe` (line 472):
`() => listeners.delete(listener)` removes the listener from the `Set`. -/
def cellUnsubscribe (c : Cell) (l : Nat) : Cell :=
  { c with listeners := c.listeners.erase l }

/-- C1: on an initialized store, a write whose every key carries a value
`Object.is`-equal to the current value at that key (whether given as a plain
object or produced by an updater) invokes zero listeners and leaves the state
cell untouched: `cellSetState` returns exactly the input cell (same snapshot
object, hence the same `getState()` reference) paired with an empty list of
invoked listeners. -/
theorem setState_is_equal_write_noop (c : Cell) (st : St) (pl : Payload)
    (hinit : c.state = some st)
    (heq : ∀ kv ∈ applyPayload c pl, stGet st kv.1 = kv.2) :
    cellSetState c pl = (c, []) := by
  have hch : hasChanged st (applyPayload c pl) = false := by
    unfold hasChanged
    rw [List.any_eq_false]
    intro kv hkv
    simp [heq kv hkv]
  unfold cellSetState
  rw [hinit]
  simp [hch]

/-- Concrete instance of `setState_is_equal_write_noop`: state
`{count: 3, name: "a"}`, one listener, write `{count: 3}`. -/
theorem setState_is_equal_write_noop_witness :
    cellSetState ⟨some [("count", .num 3), ("name", .str "a")], [5]⟩
        (.obj [("count", .num 3)]) =
      (⟨some [("count", .num 3), ("name", .str "a")], [5]⟩, []) :=
  setState_is_equal_write_noop _ [("count", .num 3), ("name", .str "a")] _ rfl
    (by decide)

/-- C6 counterexample: `listeners` is a JavaScript `Set` of function
references (line 427), so subscribing the same listener function twice leaves
a single registration. With listener `7` subscribed twice, the claim predicts
that a committed write invokes the function twice and that calling the first
returned unsubscribe removes only one of two registrations; the code invokes
it once, and a single unsubscribe call empties the registration entirely. -/
theorem subscribe_same_listener_twice_counterexample :
    ((cellSetState
        (cellSubscribe (cellSubscribe ⟨some [("count", .num 0)], []⟩ 7) 7)
        (.obj [("count", .num 1)])).2.count 7 = 1) ∧
      (cellUnsubscribe
          (cellSubscribe (cellSubscribe ⟨some [("count", .num 0)], []⟩ 7) 7)
          7).listeners = [] := by
  decide

/-- C6 amended: subscription is keyed by function identity through a `Set`:
re-subscribing an already-subscribed function adds no new registration, any
unsubscribe returned for that function removes its single registration
entirely, and while the function is registered a write invokes it at most
once per commit (exactly once on a committed write). Listener lists built
through `cellSubscribe` are duplicate-free, which the `Nodup` hypothesis
records. -/
theorem cellSetState_invoked (c : Cell) (pl : Payload) :
    (cellSetState c pl).2 = [] ∨ (cellSetState c pl).2 = c.listeners := by
  unfold cellSetState
  cases c.state with
  | none => right; rfl
  | some st =>
    by_cases h : hasChanged st (applyPayload c pl)
    · right; simp [h]
    · left; simp [h]

theorem subscribe_set_semantics (c : Cell) (l : Nat) (hnd : c.listeners.Nodup) :
    cellSubscribe (cellSubscribe c l) l = cellSubscribe c l ∧
      (cellUnsubscribe (cellSubscribe c l) l).listeners = c.listeners.erase l ∧
      (cellSubscribe c l).listeners.count l = 1 ∧
      (∀ pl : Payload, (cellSetState (cellSubscribe c l) pl).2 = [] ∨
        (cellSetState (cellSubscribe c l) pl).2.count l = 1) := by
  have hmem : (cellSubscribe c l).listeners.count l = 1 := by
    unfold cellSubscribe
    by_cases hml : l ∈ c.listeners
    · rw [if_pos hml]
      exact List.count_eq_one_of_mem hnd hml
    · rw [if_neg hml]
      rw [List.count_append]
      simp [List.count_eq_zero_of_not_mem hml]
  refine ⟨?_, ?_, hmem, ?_⟩
  · have hin : l ∈ (cellSubscribe c l).listeners := by
      unfold cellSubscribe
      by_cases hml : l ∈ c.listeners
      · rw [if_pos hml]; exact hml
      · rw [if_neg hml]; simp
    show (if l ∈ (cellSubscribe c l).listeners then cellSubscribe c l
      else { cellSubscribe c l with
        listeners := (cellSubscribe c l).listeners ++ [l] }) = cellSubscribe c l
    rw [if_pos hin]
  · unfold cellSubscribe cellUnsubscribe
    by_cases hml : l ∈ c.listeners
    · rw [if_pos hml]
    · rw [if_neg hml]
      simp only
      rw [List.erase_append_right _ hml, List.erase_of_not_mem hml]
      simp
  · intro pl
    rcases cellSetState_invoked (cellSubscribe c l) pl with h | h
    · left; exact h
    · right; rw [h]; exact hmem

/-- Concrete instance of `subscribe_set_semantics` at listener `3` on a cell
with one other listener already present. -/
theorem subscribe_set_semantics_witness :
    cellSubscribe (cellSubscribe ⟨some [("count", .num 0)], [9]⟩ 3) 3 =
        cellSubscribe ⟨some [("count", .num 0)], [9]⟩ 3 ∧
      (cellUnsubscribe (cellSubscribe ⟨some [("count", .num 0)], [9]⟩ 3) 3).listeners =
        ([9] : List Nat).erase 3 ∧
      (cellSubscribe ⟨some [("count", .num 0)], [9]⟩ 3).listeners.count 3 = 1 ∧
      (∀ pl : Payload,
        (cellSetState (cellSubscribe ⟨some [("count", .num 0)], [9]⟩ 3) pl).2 = [] ∨
        (cellSetState (cellSubscribe ⟨some [("count", .num 0)], [9]⟩ 3) pl).2.count 3 = 1) :=
  subscribe_set_semantics ⟨some [("count", .num 0)], [9]⟩ 3 (by decide)

/-!
## MiddlewareComposer: `createStore` composition loop (lines 476-502)
-/

/-- A creator as it behaves during store construction: invoking it either
produces the initial state (`some`) or throws (`none`). -/
abbrev CreatorM := Option St

/-- A middleware transform: applying it to a creator either yields the
transformed creator or throws during application (`none`). -/
abbrev MW := CreatorM → Option CreatorM

/-- The composition loop (lines 478-493): iterate the middleware array from
the last index down to 0; each application is wrapped in try/catch, and a
middleware that throws leaves `finalCreator` as it stood. `List.foldr` applies
the last element first, exactly like the descending index loop. -/
def applyMiddleware (mws : List MW) (base : CreatorM) : CreatorM :=
  mws.foldr (fun mw acc => (mw acc).getD acc) base

/-- Initial-state production (lines 496-502): invoke the composed creator;
if that throws, fall back to invoking the unmodified base creator. -/
def composedInitState (mws : List MW) (base : CreatorM) : Option St :=
  match applyMiddleware mws base with
  | some st => some st
  | none => base

/-- C8: a middleware that throws while being applied is skipped and
composition proceeds with the creator as it stood, so the composed creator
equals the one obtained without that middleware (the remaining middleware are
still applied); and whenever the base creator itself can produce a state,
store creation yields an initial state even if the fully composed creator
throws, because the composer falls back to the unmodified base creator. -/
theorem middleware_failure_skipped (mws₁ mws₂ : List MW) (bad : MW)
    (base : CreatorM) (s₀ : St)
    (hbad : ∀ cr, bad cr = none) (hbase : base = some s₀) :
    applyMiddleware (mws₁ ++ bad :: mws₂) base = applyMiddleware (mws₁ ++ mws₂) base ∧
      (composedInitState (mws₁ ++ bad :: mws₂) base).isSome = true := by
  have hskip : applyMiddleware (mws₁ ++ bad :: mws₂) base =
      applyMiddleware (mws₁ ++ mws₂) base := by
    unfold applyMiddleware
    rw [List.foldr_append, List.foldr_append]
    simp only [List.foldr_cons, hbad, Option.getD_none]
  refine ⟨hskip, ?_⟩
  unfold composedInitState
  cases happ : applyMiddleware (mws₁ ++ bad :: mws₂) base with
  | some st => simp
  | none => simp [hbase]

/-- Concrete instance of `middleware_failure_skipped`: a throwing middleware
between an identity middleware and a state-replacing middleware. -/
theorem middleware_failure_skipped_witness :
    applyMiddleware
        ([fun cr => some cr] ++ (fun _ => none) :: [fun _ => some (some [("x", .num 1)])])
        (some []) =
      applyMiddleware ([fun cr => some cr] ++ [fun _ => some (some [("x", .num 1)])])
        (some []) ∧
      (composedInitState
          ([fun cr => some cr] ++ (fun _ => none) :: [fun _ => some (some [("x", .num 1)])])
          (some [])).isSome = true :=
  middleware_failure_skipped [fun cr => some cr] [fun _ => some (some [("x", .num 1)])]
    (fun _ => none) (some []) [] (fun _ => rfl) rfl

/-!
## ComputedCache: `computedMiddleware` (src/middleware/computed.ts, lines
109-295 of the concatenated schema.ts source)

`computed` maps each computed name to its pure function, `dependsOn` is the
optional declaration of state-key dependencies per computed name; both are
association lists keyed by the computed name. `cache` and `isUpToDate` are
JavaScript records with absent keys reading as falsy, modeled as total
functions with default `undef` / `false`.
-/

/-- Line 148: `dependsOn[computedKey] || []` — the declared dependency list of
a computed name, with the empty list when the declaration is omitted. -/
def depsOf (dOn : List (String × List String)) (ck : String) : List String :=
  ((dOn.find? (fun p => p.1 == ck)).map (fun p => p.2)).getD []

/-- The reverse-dependency map built at construction (lines 146-161):
`dependencies[depKey]` is the set of computed names whose declared dependency
list contains `depKey`, collected in the iteration order of the computed
names. -/
def revDepsOf (cks : List String) (dOn : List (String × List String))
    (depKey : String) : List String :=
  cks.filter (fun ck => (depsOf dOn ck).contains depKey)

/-- Lines 184-189: the keys of the post-write state whose value is not
`Object.is`-equal to the pre-write value. -/
def changedKeys (prevState nextState : St) : List String :=
  (nextState.map (fun p => p.1)).filter
    (fun k => !(stGet prevState k == stGet nextState k))

/-- The invalidation step of `computedSet` (lines 191-206): collect every
computed name directly dependent on some changed key (the JavaScript `Set`
`affectedComputedKeys` is modeled as a list with the same membership) and set
its freshness flag to false; all other flags are untouched. -/
def invalidate (cks : List String) (dOn : List (String × List String))
    (prevState nextState : St) (flags : String → Bool) : String → Bool :=
  let affected := (changedKeys prevState nextState).flatMap (revDepsOf cks dOn)
  fun k => if k ∈ affected then false else flags k

/-- The per-store cache of the computed middleware: cached values and
freshness flags, both keyed by computed name (lines 137-140). -/
structure ComputedCtx where
  cache : String → Value
  isUpToDate : String → Bool

/-- Function `compute` (lines 164-170): return the cached value when fresh; otherwise
invoke the computed function on the current state, cache the result and mark
the name fresh. -/
def compute (fns : List (String × (St → Value))) (st : St) (ctx : ComputedCtx)
    (key : String) : ComputedCtx × Value :=
  if ctx.isUpToDate key then (ctx, ctx.cache key)
  else
    let v := (((fns.find? (fun p => p.1 == key)).map (fun p => p.2)).getD
      (fun _ => .undef)) st
    (⟨fun k => if k = key then v else ctx.cache k,
      fun k => if k = key then true else ctx.isUpToDate k⟩, v)

/-- Function `computedSet` (lines 173-207) as a whole: apply the underlying `set`,
then invalidate along the reverse-dependency map using the old and new
states. Returns the new cell, the invoked listeners, and the new freshness
flags. -/
def computedSet (cks : List String) (dOn : List (String × List String))
    (c : Cell) (flags : String → Bool) (pl : Payload) :
    Cell × List Nat × (String → Bool) :=
  let prevState := c.state.getD []
  let r := cellSetState c pl
  let nextState := r.1.state.getD []
  (r.1, r.2, invalidate cks dOn prevState nextState flags)

/-- C2 counterexample: with `doubled` declared to depend on `count` and
`combinedValue` declared to depend on the computed name `doubled`, both
freshly computed, a committed write changing `count` from 1 to 2 marks
`doubled` stale but leaves `combinedValue` fresh — the claim's transitive
closure over reverse-dependency edges does not happen, because the diff only
ever produces top-level state keys and computed names never appear among
them. -/
theorem computed_invalidation_not_transitive_counterexample :
    ((computedSet ["doubled", "combinedValue"]
        [("doubled", ["count"]), ("combinedValue", ["doubled"])]
        ⟨some [("count", .num 1)], []⟩
        ((compute
            [("doubled", fun st => stGet st "count"),
             ("combinedValue", fun st => stGet st "count")]
            [("count", .num 1)]
            ((compute
                [("doubled", fun st => stGet st "count"),
                 ("combinedValue", fun st => stGet st "count")]
                [("count", .num 1)] ⟨fun _ => .undef, fun _ => false⟩
                "doubled").1)
            "combinedValue").1.isUpToDate)
        (.obj [("count", .num 2)])).2.2 "combinedValue" = true) ∧
      ((computedSet ["doubled", "combinedValue"]
        [("doubled", ["count"]), ("combinedValue", ["doubled"])]
        ⟨some [("count", .num 1)], []⟩
        ((compute
            [("doubled", fun st => stGet st "count"),
             ("combinedValue", fun st => stGet st "count")]
            [("count", .num 1)]
            ((compute
                [("doubled", fun st => stGet st "count"),
                 ("combinedValue", fun st => stGet st "count")]
                [("count", .num 1)] ⟨fun _ => .undef, fun _ => false⟩
                "doubled").1)
            "combinedValue").1.isUpToDate)
        (.obj [("count", .num 2)])).2.2 "doubled" = false) := by
  constructor
  · rfl
  · rfl

/-- C2 amended: on a committed write, a computed name is newly marked stale
exactly when some changed top-level state key appears in its declared
dependency list; staleness does not propagate through computed-to-computed
dependency edges (a dependency on another computed name only fires if a state
key of that literal name changes). -/
theorem computed_invalidation_direct_only (cks : List String)
    (dOn : List (String × List String)) (prevState nextState : St)
    (flags : String → Bool) (ck : String) :
    invalidate cks dOn prevState nextState flags ck = false ↔
      (flags ck = false ∨
        ∃ k ∈ changedKeys prevState nextState, ck ∈ revDepsOf cks dOn k) := by
  unfold invalidate
  by_cases h : ck ∈ (changedKeys prevState nextState).flatMap (revDepsOf cks dOn)
  · rw [if_pos h]
    rw [List.mem_flatMap] at h
    simp [h]
  · rw [if_neg h]
    rw [List.mem_flatMap] at h
    simp only [h, or_false]

/-!
## TimeTravelHistory: `timeTravelMiddleware` (src/middleware/timeTravel.ts)

The middleware's closure state is the `history` array, the `currentPointer`
index (an `Int`, since it starts at -1), and the underlying state cell. The
`timestamp` field of a history entry is omitted: no claim concerns it. The
`isTimeTraveling` reentrancy flag is only ever set and cleared inside a
single travel operation, so each operation is modeled atomically with its
internal `set` call going straight to the cell.
-/

/-- The time-travel middleware's state: `history`/`currentPointer`
(lines 19-20) plus the wrapped state cell. -/
structure TTStore where
  history : List St
  ptr : Int
  cell : Cell

/-- Construction (lines 19-20 and 24): `history` starts empty and
`currentPointer` starts at -1; invoking the creator returns the initial
store object without calling `set`, so nothing is recorded before the first
external write. -/
def ttInit (c : Cell) : TTStore := ⟨[], -1, c⟩

/-- The history-recording part of the wrapped `set` (lines 36-52): truncate
after the cursor when the cursor is not at the end (`splice`), append the new
state, evict the oldest entry when `maxHistory` is exceeded (`shift`), and
put the cursor on the last index. Returns the new history and cursor. -/
def ttRecord (maxHistory : Nat) (hist : List St) (p : Int) (newState : St) :
    List St × Int :=
  let h1 := if p < (hist.length : Int) - 1 then hist.take (p + 1).toNat else hist
  let h2 := h1 ++ [newState]
  let h3 := if h2.length > maxHistory then h2.tail else h2
  (h3, (h3.length : Int) - 1)

/-- The wrapped `set` installed by the middleware (lines 24-54): when
disabled (or during a travel operation) just delegate to the underlying
`set`; otherwise compute the post-write state `{...get(), ...payload}`,
record it, and then delegate. -/
def ttWrite (enabled : Bool) (maxHistory : Nat) (tt : TTStore) (pl : Payload) :
    TTStore :=
  if !enabled then { tt with cell := (cellSetState tt.cell pl).1 }
  else
    let newState := stMerge (tt.cell.state.getD []) (applyPayload tt.cell pl)
    let r := ttRecord maxHistory tt.history tt.ptr newState
    ⟨r.1, r.2, (cellSetState tt.cell pl).1⟩

/-- Function `goBack` (lines 60-68): fails when the cursor is at or below 0; otherwise
decrements the cursor and writes the entry at the new cursor into the cell
(under the reentrancy guard, so nothing is recorded). -/
def ttGoBack (tt : TTStore) : TTStore × Bool :=
  if tt.ptr ≤ 0 then (tt, false)
  else
    (⟨tt.history, tt.ptr - 1,
      (cellSetState tt.cell (.obj ((tt.history[(tt.ptr - 1).toNat]?).getD []))).1⟩,
      true)

/-- Function `goForward` (lines 71-79): symmetric to `goBack`, fails at the last
index. -/
def ttGoForward (tt : TTStore) : TTStore × Bool :=
  if tt.ptr ≥ (tt.history.length : Int) - 1 then (tt, false)
  else
    (⟨tt.history, tt.ptr + 1,
      (cellSetState tt.cell (.obj ((tt.history[(tt.ptr + 1).toNat]?).getD []))).1⟩,
      true)

/-- Function `jumpToState` (lines 82-90): fails when the index is outside
`[0, length)`. -/
def ttJumpToState (tt : TTStore) (i : Int) : TTStore × Bool :=
  if i < 0 ∨ i ≥ (tt.history.length : Int) then (tt, false)
  else
    (⟨tt.history, i,
      (cellSetState tt.cell (.obj ((tt.history[i.toNat]?).getD []))).1⟩,
      true)

/-- Function `clearHistory` (lines 106-117): a no-op on an empty history; otherwise
keeps only the entry at the cursor and resets the cursor to 0. (On every
state reachable through the operations the cursor indexes into a non-empty
history, so the `getD` default is never taken; in JavaScript an invalid index
would throw.) -/
def ttClearHistory (tt : TTStore) : TTStore :=
  if tt.history.length = 0 then tt
  else ⟨[(tt.history[tt.ptr.toNat]?).getD []], 0, tt.cell⟩

/-- One externally visible operation on a time-travel store. -/
inductive TTOp where
  | write (pl : Payload)
  | back
  | forward
  | jump (i : Int)
  | clear

def ttStep (enabled : Bool) (maxHistory : Nat) (tt : TTStore) (op : TTOp) :
    TTStore :=
  match op with
  | .write pl => ttWrite enabled maxHistory tt pl
  | .back => (ttGoBack tt).1
  | .forward => (ttGoForward tt).1
  | .jump i => (ttJumpToState tt i).1
  | .clear => ttClearHistory tt

def ttRun (enabled : Bool) (maxHistory : Nat) (tt : TTStore) (ops : List TTOp) :
    TTStore :=
  ops.foldl (ttStep enabled maxHistory) tt

/-- The cursor/history relationship the code actually maintains: before the
first recorded write the history is empty with cursor -1; once the history is
non-empty the cursor lies in `[0, length-1]`. -/
def ttInv (tt : TTStore) : Prop :=
  (tt.history = [] ∧ tt.ptr = -1) ∨
    (tt.history ≠ [] ∧ 0 ≤ tt.ptr ∧ tt.ptr ≤ (tt.history.length : Int) - 1)

/-- C5 counterexample: immediately after construction the history of a
time-travel store is empty (and the cursor is -1) — no entry 0 is seeded,
contradicting the claim that the history is non-empty after construction. -/
theorem timeTravel_construction_empty_counterexample :
    (ttInit ⟨some [("count", .num 0)], []⟩).history = [] ∧
      (ttInit ⟨some [("count", .num 0)], []⟩).ptr = -1 :=
  ⟨rfl, rfl⟩

theorem ttStep_preserves_inv (enabled : Bool) (mh : Nat) (tt : TTStore)
    (op : TTOp) (h : ttInv tt) : ttInv (ttStep enabled mh tt op) := by
  cases op with
  | write pl =>
    show ttInv (ttWrite enabled mh tt pl)
    unfold ttWrite
    by_cases he : (!enabled) = true
    · rw [if_pos he]
      exact h
    · rw [if_neg he]
      unfold ttInv
      dsimp only
      have hptr : (ttRecord mh tt.history tt.ptr
          (stMerge (tt.cell.state.getD []) (applyPayload tt.cell pl))).2 =
          ((ttRecord mh tt.history tt.ptr
            (stMerge (tt.cell.state.getD []) (applyPayload tt.cell pl))).1.length : Int) - 1 :=
        rfl
      by_cases hnil : (ttRecord mh tt.history tt.ptr
          (stMerge (tt.cell.state.getD []) (applyPayload tt.cell pl))).1 = []
      · left
        refine ⟨hnil, ?_⟩
        rw [hptr, hnil]
        rfl
      · right
        have hlen : 0 < (ttRecord mh tt.history tt.ptr
            (stMerge (tt.cell.state.getD []) (applyPayload tt.cell pl))).1.length :=
          List.length_pos.mpr hnil
        exact ⟨hnil, by omega, by omega⟩
  | back =>
    show ttInv (ttGoBack tt).1
    unfold ttGoBack
    by_cases hp : tt.ptr ≤ 0
    · rw [if_pos hp]; exact h
    · rw [if_neg hp]
      unfold ttInv at h ⊢
      dsimp only
      rcases h with ⟨_, hptr⟩ | ⟨hne, h0, h1⟩
      · omega
      · exact Or.inr ⟨hne, by omega, by omega⟩
  | forward =>
    show ttInv (ttGoForward tt).1
    unfold ttGoForward
    by_cases hp : tt.ptr ≥ (tt.history.length : Int) - 1
    · rw [if_pos hp]; exact h
    · rw [if_neg hp]
      unfold ttInv at h ⊢
      dsimp only
      right
      have hlen : 0 < tt.history.length := by
        rcases h with ⟨_, hptr⟩ | ⟨hne, h0, h1⟩ <;> omega
      refine ⟨by simpa using List.length_pos.mp hlen, ?_, by omega⟩
      rcases h with ⟨_, hptr⟩ | ⟨_, h0, _⟩ <;> omega
  | jump i =>
    show ttInv (ttJumpToState tt i).1
    unfold ttJumpToState
    by_cases hp : i < 0 ∨ i ≥ (tt.history.length : Int)
    · rw [if_pos hp]; exact h
    · rw [if_neg hp]
      push_neg at hp
      unfold ttInv
      dsimp only
      right
      have hlen : 0 < tt.history.length := by omega
      exact ⟨by simpa using List.length_pos.mp hlen, by omega, by omega⟩
  | clear =>
    show ttInv (ttClearHistory tt)
    unfold ttClearHistory
    by_cases hp : tt.history.length = 0
    · rw [if_pos hp]; exact h
    · rw [if_neg hp]
      unfold ttInv
      dsimp only
      right
      exact ⟨by simp, by omega, by simp⟩

/-- C5 amended: construction leaves the history empty with cursor -1 (no
entry is seeded), and after every sequence of write / goBack / goForward /
jumpToState / clearHistory operations either the history is still (or again,
when `maxHistory = 0`) empty with cursor -1, or the cursor is an integer in
`[0, length-1]`. -/
theorem timeTravel_cursor_invariant (enabled : Bool) (mh : Nat) (c : Cell)
    (ops : List TTOp) :
    (ttInit c).history = [] ∧ (ttInit c).ptr = -1 ∧
      ttInv (ttRun enabled mh (ttInit c) ops) := by
  refine ⟨rfl, rfl, ?_⟩
  suffices hgen : ∀ tt : TTStore, ttInv tt → ttInv (ttRun enabled mh tt ops) from
    hgen _ (Or.inl ⟨rfl, rfl⟩)
  induction ops with
  | nil => intro tt h; exact h
  | cons op rest ih =>
    intro tt h
    exact ih _ (ttStep_preserves_inv enabled mh tt op h)

theorem cellSetState_single (c : Cell) (k : String) (a b : Value)
    (h : c.state = some [(k, a)]) :
    (cellSetState c (.obj [(k, b)])).1.state = some [(k, b)] ∧
      (cellSetState c (.obj [(k, b)])).1.listeners = c.listeners := by
  obtain ⟨cs, cl⟩ := c
  simp only at h
  subst h
  by_cases hab : a = b
  · subst hab
    have hch : hasChanged [(k, a)] [(k, a)] = false := by
      simp [hasChanged, stGet]
    simp [cellSetState, applyPayload, hch]
  · have hch : hasChanged [(k, a)] [(k, b)] = true := by
      simp [hasChanged, stGet, hab]
    have hm : stMerge [(k, a)] [(k, b)] = [(k, b)] := by
      simp [stMerge, hasKey, stGet]
    simp [cellSetState, applyPayload, hch, hm]

theorem ttWrite_single_step (mh : Nat) (tt : TTStore) (k : String) (a b : Value)
    (hc : tt.cell.state = some [(k, a)]) :
    (ttWrite true mh tt (.obj [(k, b)])).cell.state = some [(k, b)] ∧
      (ttWrite true mh tt (.obj [(k, b)])).history =
        (ttRecord mh tt.history tt.ptr [(k, b)]).1 ∧
      (ttWrite true mh tt (.obj [(k, b)])).ptr =
        (ttRecord mh tt.history tt.ptr [(k, b)]).2 := by
  have hm : stMerge (tt.cell.state.getD []) (applyPayload tt.cell (.obj [(k, b)])) =
      [(k, b)] := by
    rw [hc]
    show stMerge [(k, a)] [(k, b)] = [(k, b)]
    simp [stMerge, hasKey, stGet]
  refine ⟨(cellSetState_single tt.cell k a b hc).1, ?_, ?_⟩
  · show (ttRecord mh tt.history tt.ptr
      (stMerge (tt.cell.state.getD []) (applyPayload tt.cell (.obj [(k, b)])))).1 = _
    rw [hm]
  · show (ttRecord mh tt.history tt.ptr
      (stMerge (tt.cell.state.getD []) (applyPayload tt.cell (.obj [(k, b)])))).2 = _
    rw [hm]

theorem ttGoBack_step (tt : TTStore) (k : String) (a b : Value)
    (hptr : 0 < tt.ptr)
    (hentry : (tt.history[(tt.ptr - 1).toNat]?).getD [] = [(k, b)])
    (hc : tt.cell.state = some [(k, a)]) :
    (ttGoBack tt).1.history = tt.history ∧ (ttGoBack tt).1.ptr = tt.ptr - 1 ∧
      (ttGoBack tt).1.cell.state = some [(k, b)] := by
  unfold ttGoBack
  rw [if_neg (by omega)]
  refine ⟨rfl, rfl, ?_⟩
  dsimp only
  rw [hentry]
  exact (cellSetState_single tt.cell k a b hc).1

/-- C3: from a fresh time-travel store over `{count: c0}`, four writes
producing the states `S0..S3` (with `Si = {count: vi}`), one `goBack`, and a
new write producing `S4` leave the history exactly `[S0, S1, S2, S4]`; `S3`
is discarded and, provided `v3` differs from the other written values, no
history entry equals `S3`. -/
theorem timeTravel_branch_on_write (c0 v0 v1 v2 v3 v4 : Value) (ls : List Nat)
    (h30 : v3 ≠ v0) (h31 : v3 ≠ v1) (h32 : v3 ≠ v2) (h34 : v3 ≠ v4) :
    (ttRun true 100 (ttInit ⟨some [("count", c0)], ls⟩)
        [.write (.obj [("count", v0)]), .write (.obj [("count", v1)]),
         .write (.obj [("count", v2)]), .write (.obj [("count", v3)]),
         .back, .write (.obj [("count", v4)])]).history =
      [[("count", v0)], [("count", v1)], [("count", v2)], [("count", v4)]] ∧
      ∀ h ∈ (ttRun true 100 (ttInit ⟨some [("count", c0)], ls⟩)
        [.write (.obj [("count", v0)]), .write (.obj [("count", v1)]),
         .write (.obj [("count", v2)]), .write (.obj [("count", v3)]),
         .back, .write (.obj [("count", v4)])]).history,
        h ≠ [("count", v3)] := by
  set t0 : TTStore := ttInit ⟨some [("count", c0)], ls⟩ with ht0
  set t1 := ttWrite true 100 t0 (.obj [("count", v0)]) with ht1
  set t2 := ttWrite true 100 t1 (.obj [("count", v1)]) with ht2
  set t3 := ttWrite true 100 t2 (.obj [("count", v2)]) with ht3
  set t4 := ttWrite true 100 t3 (.obj [("count", v3)]) with ht4
  set t5 := (ttGoBack t4).1 with ht5
  set t6 := ttWrite true 100 t5 (.obj [("count", v4)]) with ht6
  have hc0 : t0.cell.state = some [("count", c0)] := rfl
  have s1 := ttWrite_single_step 100 t0 "count" c0 v0 hc0
  have e1c : t1.cell.state = some [("count", v0)] := s1.1
  have e1h : t1.history = [[("count", v0)]] := s1.2.1
  have e1p : t1.ptr = 0 := s1.2.2
  have s2 := ttWrite_single_step 100 t1 "count" v0 v1 e1c
  have e2c : t2.cell.state = some [("count", v1)] := s2.1
  have e2h0 := s2.2.1
  have e2p0 := s2.2.2
  rw [e1h, e1p] at e2h0 e2p0
  have e2h : t2.history = [[("count", v0)], [("count", v1)]] := e2h0
  have e2p : t2.ptr = 1 := e2p0
  have s3 := ttWrite_single_step 100 t2 "count" v1 v2 e2c
  have e3c : t3.cell.state = some [("count", v2)] := s3.1
  have e3h0 := s3.2.1
  have e3p0 := s3.2.2
  rw [e2h, e2p] at e3h0 e3p0
  have e3h : t3.history = [[("count", v0)], [("count", v1)], [("count", v2)]] := e3h0
  have e3p : t3.ptr = 2 := e3p0
  have s4 := ttWrite_single_step 100 t3 "count" v2 v3 e3c
  have e4c : t4.cell.state = some [("count", v3)] := s4.1
  have e4h0 := s4.2.1
  have e4p0 := s4.2.2
  rw [e3h, e3p] at e4h0 e4p0
  have e4h : t4.history =
      [[("count", v0)], [("count", v1)], [("count", v2)], [("count", v3)]] := e4h0
  have e4p : t4.ptr = 3 := e4p0
  have hb := ttGoBack_step t4 "count" v3 v2 (by rw [e4p]; norm_num)
    (by
      rw [e4h, e4p]
      have h2i : ((3 : Int) - 1).toNat = 2 := by decide
      rw [h2i]
      rfl) e4c
  rw [← ht5] at hb
  have e5h : t5.history =
      [[("count", v0)], [("count", v1)], [("count", v2)], [("count", v3)]] := by
    rw [hb.1, e4h]
  have e5p : t5.ptr = 2 := by
    rw [hb.2.1, e4p]
    norm_num
  have e5c : t5.cell.state = some [("count", v2)] := hb.2.2
  have s6 := ttWrite_single_step 100 t5 "count" v2 v4 e5c
  have e6h0 := s6.2.1
  rw [e5h, e5p] at e6h0
  have e6h : t6.history =
      [[("count", v0)], [("count", v1)], [("count", v2)], [("count", v4)]] := e6h0
  have hrun : ttRun true 100 t0
      [.write (.obj [("count", v0)]), .write (.obj [("count", v1)]),
       .write (.obj [("count", v2)]), .write (.obj [("count", v3)]),
       .back, .write (.obj [("count", v4)])] = t6 := by
    rw [ht6, ht5, ht4, ht3, ht2, ht1]
    simp only [ttRun, List.foldl, ttStep]
  rw [hrun, e6h]
  refine ⟨rfl, ?_⟩
  intro h hmem
  simp only [List.mem_cons, List.not_mem_nil, or_false] at hmem
  rcases hmem with rfl | rfl | rfl | rfl
  · exact fun heq => h30 (by simpa using heq.symm)
  · exact fun heq => h31 (by simpa using heq.symm)
  · exact fun heq => h32 (by simpa using heq.symm)
  · exact fun heq => h34 (by simpa using heq.symm)

/-- Concrete instance of `timeTravel_branch_on_write` with `count` values
0, 10, 11, 12, 13, 14. -/
theorem timeTravel_branch_on_write_witness :
    (ttRun true 100 (ttInit ⟨some [("count", .num 0)], []⟩)
        [.write (.obj [("count", .num 10)]), .write (.obj [("count", .num 11)]),
         .write (.obj [("count", .num 12)]), .write (.obj [("count", .num 13)]),
         .back, .write (.obj [("count", .num 14)])]).history =
      [[("count", .num 10)], [("count", .num 11)], [("count", .num 12)],
       [("count", .num 14)]] ∧
      ∀ h ∈ (ttRun true 100 (ttInit ⟨some [("count", .num 0)], []⟩)
        [.write (.obj [("count", .num 10)]), .write (.obj [("count", .num 11)]),
         .write (.obj [("count", .num 12)]), .write (.obj [("count", .num 13)]),
         .back, .write (.obj [("count", .num 14)])]).history,
        h ≠ [("count", .num 13)] :=
  timeTravel_branch_on_write (.num 0) (.num 10) (.num 11) (.num 12) (.num 13)
    (.num 14) [] (by decide) (by decide) (by decide) (by decide)

/-- C4 evaluation at the failing input: computed `total` over
`(state) => state.count` with `dependsOn` omitted entirely. After the first
read caches the value for `count = 1`, a committed write changing `count`
to 2 leaves `total` marked fresh (`dependsOn[key] || []` registers no
reverse-dependency edge), so the next read returns the stale cached value 1
instead of the value 2 a recomputation against the current state would give. -/
theorem computed_omitted_deps_never_invalidated :
    ((computedSet ["total"] []
        ⟨some [("count", .num 1)], []⟩
        ((compute [("total", fun st => stGet st "count")]
            [("count", .num 1)] ⟨fun _ => .undef, fun _ => false⟩
            "total").1.isUpToDate)
        (.obj [("count", .num 2)])).2.2 "total" = true) ∧
      ((compute [("total", fun st => stGet st "count")]
          [("count", .num 2)]
          ⟨(compute [("total", fun st => stGet st "count")]
              [("count", .num 1)] ⟨fun _ => .undef, fun _ => false⟩
              "total").1.cache,
            (computedSet ["total"] []
              ⟨some [("count", .num 1)], []⟩
              ((compute [("total", fun st => stGet st "count")]
                  [("count", .num 1)] ⟨fun _ => .undef, fun _ => false⟩
                  "total").1.isUpToDate)
              (.obj [("count", .num 2)])).2.2⟩
          "total").2 = .num 1) ∧
      stGet [("count", .num 2)] "count" = .num 2 := by
  refine ⟨rfl, rfl, rfl⟩

/-!
## PersistenceController: `createPersistStore` (src/core/persist.ts)

Modeled on a client environment where `window` exists and a storage backend
is configured (the claims concern that configuration). The storage cell
under the configured `name` key holds `none` (no record) or a
`StoredRec`.
-/

/-- A function-valued entry (excluded by the default projection). -/
def isFuncValue : Value → Bool
  | .func _ => true
  | _ => false

/-- The default `partialize` (lines 16-27): copy the state and delete every
key that starts with an underscore or whose value is a function. -/
def persistProjection (st : St) : St :=
  st.filter (fun p => !(p.1.startsWith "_" || isFuncValue p.2))

/-- The stored record `{ state: partialize(state), version }` (lines 87-93),
the JSON-serialized value placed under the configured key. -/
structure StoredRec where
  state : St
  version : Int
deriving DecidableEq, Repr

/-- Function `persistState` (lines 70-98): when the store is not yet mounted, nothing
is written and the storage cell is unchanged; otherwise the projected record
is written under the configured key. (The `typeof window`/`storage` guards
and the try/catch around `setItem` are outside this client-with-storage
model.) -/
def persistCommit (isMounted : Bool) (version : Int) (storage : Option StoredRec)
    (st : St) : Option StoredRec :=
  if !isMounted then storage
  else some ⟨persistProjection st, version⟩

/-- The per-store persistence context: the wrapped cell, the
`storeState.isMounted` flag, and the storage cell under the configured key. -/
structure PStore where
  cell : Cell
  isMounted : Bool
  storage : Option StoredRec

/-- A full write through the persist-wrapped store: `originalSet` runs first
(lines 109-110), then the persistence subscription (lines 101-106) fires on a
committed write and persists when mounted, and the wrapped `setState` backup
path (lines 112-119) persists again when mounted (via `setTimeout`, modeled
as running before the call returns since no claim concerns the deferral). -/
def persistWrite (p : PStore) (version : Int) (pl : Payload) : PStore × List Nat :=
  let r := cellSetState p.cell pl
  let st1 := if r.2 ≠ [] ∧ p.isMounted then
      persistCommit p.isMounted version p.storage (r.1.state.getD [])
    else p.storage
  let st2 := if p.isMounted then
      persistCommit p.isMounted version st1 (r.1.state.getD [])
    else st1
  (⟨r.1, p.isMounted, st2⟩, r.2)

/-- C10: before the mounted flag is set no storage write ever occurs — a
write through the persist-wrapped store leaves the storage cell untouched
while the state cell and listener notifications behave exactly as for the
unwrapped `setState`; and `persistState` itself, called with the flag unset
(on any state, from either trigger path), returns the storage unchanged. -/
theorem unmounted_write_never_persists (p : PStore) (version : Int) (pl : Payload)
    (h : p.isMounted = false) :
    (persistWrite p version pl).1.storage = p.storage ∧
      (persistWrite p version pl).1.cell = (cellSetState p.cell pl).1 ∧
      (persistWrite p version pl).2 = (cellSetState p.cell pl).2 ∧
      ∀ (s : Option StoredRec) (st : St), persistCommit false version s st = s := by
  unfold persistWrite persistCommit
  simp [h]

/-- Concrete instance of `unmounted_write_never_persists`: an unmounted store
with one listener and an existing stored record, written with `{count: 1}`. -/
theorem unmounted_write_never_persists_witness :
    (persistWrite ⟨⟨some [("count", .num 0)], [4]⟩, false, some ⟨[], 0⟩⟩ 0
        (.obj [("count", .num 1)])).1.storage = some ⟨[], 0⟩ ∧
      (persistWrite ⟨⟨some [("count", .num 0)], [4]⟩, false, some ⟨[], 0⟩⟩ 0
          (.obj [("count", .num 1)])).1.cell =
        (cellSetState ⟨some [("count", .num 0)], [4]⟩ (.obj [("count", .num 1)])).1 ∧
      (persistWrite ⟨⟨some [("count", .num 0)], [4]⟩, false, some ⟨[], 0⟩⟩ 0
          (.obj [("count", .num 1)])).2 =
        (cellSetState ⟨some [("count", .num 0)], [4]⟩ (.obj [("count", .num 1)])).2 ∧
      ∀ (s : Option StoredRec) (st : St), persistCommit false 0 s st = s :=
  unmounted_write_never_persists ⟨⟨some [("count", .num 0)], [4]⟩, false, some ⟨[], 0⟩⟩
    0 (.obj [("count", .num 1)]) rfl

/-- What `storage.getItem(name)` followed by `JSON.parse` yields: no record,
a record whose parse throws, or a parsed `{ state, version }` record. -/
inductive StorageRead where
  | absent
  | corrupt
  | record (st : St) (version : Int)

/-- The outcome of one `rehydrate()` call: the hydration flag, the state
cell afterwards, whether and with what argument the `onRehydrateStorage`
callback ran (`none` = not invoked, `some none` = invoked with `undefined`,
`some (some st)` = invoked with the restored state), and whether the
migration function was invoked. -/
structure RehydrateResult where
  isHydrated : Bool
  cell : Cell
  callback : Option (Option St)
  migrateCalled : Bool
deriving Repr

/-- Function `rehydrate` (lines 124-164). The migration function may itself throw
(`none`). The early return fires when hydration already completed; a missing
record or any exception during parse/migrate marks hydration complete,
leaves the cell untouched and invokes the callback with `undefined`;
otherwise the stored state (migrated exactly when the stored version differs
from the configured one) is spread over the original initial state and
written through `originalSet`, and the callback receives the resulting
state. `rehydrate` never writes to storage. -/
def rehydrateRun (version : Int) (migrate : St → Int → Option St)
    (initialState : St) (isHydrated : Bool) (cell : Cell)
    (stored : StorageRead) : RehydrateResult :=
  if isHydrated then ⟨isHydrated, cell, none, false⟩
  else
    match stored with
    | .absent => ⟨true, cell, some none, false⟩
    | .corrupt => ⟨true, cell, some none, false⟩
    | .record pst pver =>
      let migrated : Option St := if pver = version then some pst else migrate pst pver
      let mcalled : Bool := if pver = version then false else true
      match migrated with
      | none => ⟨true, cell, some none, mcalled⟩
      | some mst =>
        let restored := stMerge initialState mst
        let r := cellSetState cell (.obj restored)
        ⟨true, r.1, some r.1.state, mcalled⟩

/-- C9: `rehydrate` is idempotent and exception-safe. A call after hydration
has completed returns immediately: the cell is unchanged, no callback runs,
no migration runs (and storage is untouched — `rehydrateRun` never writes
storage at all). A parse failure, and a migration failure on a
version-mismatched record, each still mark hydration complete (so
`hasHydrated()` is true and a retry is the no-op above), leave the cell
unchanged and invoke the callback with `undefined`; in every case the
function returns normally — no exception escapes. -/
theorem rehydrate_idempotent_exception_safe (version : Int)
    (migrate : St → Int → Option St) (initialState : St) (cell : Cell)
    (stored : StorageRead) :
    rehydrateRun version migrate initialState true cell stored =
        ⟨true, cell, none, false⟩ ∧
      rehydrateRun version migrate initialState false cell .corrupt =
        ⟨true, cell, some none, false⟩ ∧
      ∀ pst pver, pver ≠ version → migrate pst pver = none →
        rehydrateRun version migrate initialState false cell (.record pst pver) =
          ⟨true, cell, some none, true⟩ := by
  refine ⟨by unfold rehydrateRun; simp, by unfold rehydrateRun; simp, ?_⟩
  intro pst pver hne hmig
  unfold rehydrateRun
  simp [hne, hmig]

/-- Concrete instance of `rehydrate_idempotent_exception_safe`: version 1,
a migration that always throws, a record stored at version 0. -/
theorem rehydrate_idempotent_exception_safe_witness :
    rehydrateRun 1 (fun _ _ => none) [("count", .num 0)] true
        ⟨some [("count", .num 0)], []⟩ .corrupt =
      ⟨true, ⟨some [("count", .num 0)], []⟩, none, false⟩ ∧
      rehydrateRun 1 (fun _ _ => none) [("count", .num 0)] false
          ⟨some [("count", .num 0)], []⟩ .corrupt =
        ⟨true, ⟨some [("count", .num 0)], []⟩, some none, false⟩ ∧
      rehydrateRun 1 (fun _ _ => none) [("count", .num 0)] false
          ⟨some [("count", .num 0)], []⟩ (.record [("count", .num 5)] 0) =
        ⟨true, ⟨some [("count", .num 0)], []⟩, some none, true⟩ := by
  have h := rehydrate_idempotent_exception_safe 1 (fun _ _ => none)
    [("count", .num 0)] ⟨some [("count", .num 0)], []⟩ .corrupt
  exact ⟨h.1, h.2.1, h.2.2 [("count", .num 5)] 0 (by decide) rfl⟩

theorem cellSetState_restore (initialState mst : St) (ls : List Nat) :
    ∃ st, (cellSetState ⟨some initialState, ls⟩
        (.obj (stMerge initialState mst))).1.state = some st ∧
      ∀ k, stGet st k =
        if hasKey mst k then stGet mst k else stGet initialState k := by
  unfold cellSetState
  dsimp only [applyPayload]
  cases hch : hasChanged initialState (stMerge initialState mst) with
  | true =>
    refine ⟨stMerge initialState (stMerge initialState mst), by simp [hch], ?_⟩
    intro k
    rw [stGet_stMerge, hasKey_stMerge, stGet_stMerge]
    by_cases hkm : hasKey mst k
    · simp [hkm]
    · by_cases hki : hasKey initialState k <;> simp [hkm, hki]
  | false =>
    refine ⟨initialState, by simp [hch], ?_⟩
    intro k
    by_cases hkm : hasKey mst k
    · rw [if_pos hkm]
      have hkr : hasKey (stMerge initialState mst) k = true := by
        rw [hasKey_stMerge, hkm]
        simp
      have hmem := mem_of_hasKey hkr
      have hnc := List.any_eq_false.mp hch _ hmem
      simp only [Bool.not_eq_true', Bool.not_eq_false] at hnc
      have heqv : stGet initialState k = stGet (stMerge initialState mst) k := by
        simpa using hnc
      rw [heqv, stGet_stMerge, if_pos hkm]
    · rw [if_neg hkm]

/-- C7: a successful `rehydrate()` on a store still holding its initial
state, with a persisted record present: hydration completes, the migration
function is invoked exactly when the stored version differs from the
configured version (`hm` forces the migrated state to be the stored state
as-is when the versions agree), and the resulting state is the shallow merge
of the (possibly migrated) persisted state over the initial state — at every
key, the persisted value wins when the key is present in the persisted
state, and the initial value is kept otherwise. -/
theorem rehydrate_merges_over_initial (version pver : Int)
    (migrate : St → Int → Option St) (initialState pst mst : St) (ls : List Nat)
    (hm : (if pver = version then some pst else migrate pst pver) = some mst) :
    (rehydrateRun version migrate initialState false ⟨some initialState, ls⟩
        (.record pst pver)).isHydrated = true ∧
      ((rehydrateRun version migrate initialState false ⟨some initialState, ls⟩
          (.record pst pver)).migrateCalled = true ↔ pver ≠ version) ∧
      ∃ st, (rehydrateRun version migrate initialState false
          ⟨some initialState, ls⟩ (.record pst pver)).cell.state = some st ∧
        ∀ k, stGet st k =
          if hasKey mst k then stGet mst k else stGet initialState k := by
  obtain ⟨st, hst, hpt⟩ := cellSetState_restore initialState mst ls
  unfold rehydrateRun
  by_cases hv : pver = version
  · rw [if_pos hv] at hm
    have hpm : pst = mst := by
      injection hm
    subst hpm
    simp only [if_neg Bool.false_ne_true, hv, if_pos rfl]
    exact ⟨rfl, by simp [hv], st, hst, hpt⟩
  · rw [if_neg hv] at hm
    simp only [if_neg Bool.false_ne_true, hv, if_neg hv, hm]
    exact ⟨rfl, by simp [hv], st, hst, hpt⟩

/-- Concrete instance of `rehydrate_merges_over_initial`: initial state
`{count: 0, name: "a"}`, persisted `{count: 5}` at the configured version, so
no migration runs, the restored `count` is 5 and `name` keeps its initial
value. -/
theorem rehydrate_merges_over_initial_witness :
    (rehydrateRun 1 (fun s _ => some s) [("count", .num 0), ("name", .str "a")]
        false ⟨some [("count", .num 0), ("name", .str "a")], []⟩
        (.record [("count", .num 5)] 1)).isHydrated = true ∧
      (rehydrateRun 1 (fun s _ => some s) [("count", .num 0), ("name", .str "a")]
          false ⟨some [("count", .num 0), ("name", .str "a")], []⟩
          (.record [("count", .num 5)] 1)).migrateCalled = false ∧
      stGet ((rehydrateRun 1 (fun s _ => some s)
          [("count", .num 0), ("name", .str "a")] false
          ⟨some [("count", .num 0), ("name", .str "a")], []⟩
          (.record [("count", .num 5)] 1)).cell.state.getD []) "count" = .num 5 ∧
      stGet ((rehydrateRun 1 (fun s _ => some s)
          [("count", .num 0), ("name", .str "a")] false
          ⟨some [("count", .num 0), ("name", .str "a")], []⟩
          (.record [("count", .num 5)] 1)).cell.state.getD []) "name" = .str "a" := by
  have h := rehydrate_merges_over_initial 1 1 (fun s _ => some s)
    [("count", .num 0), ("name", .str "a")] [("count", .num 5)] [("count", .num 5)]
    [] (by simp)
  obtain ⟨h1, h2, st, hst, hpt⟩ := h
  refine ⟨h1, ?_, ?_, ?_⟩
  · cases hmc : (rehydrateRun 1 (fun s _ => some s)
        [("count", .num 0), ("name", .str "a")] false
        ⟨some [("count", .num 0), ("name", .str "a")], []⟩
        (.record [("count", .num 5)] 1)).migrateCalled
    · rfl
    · exact absurd rfl (by rw [hmc] at h2; exact h2.mp rfl)
  · rw [hst]
    simpa using hpt "count"
  · rw [hst]
    simpa using hpt "name"
